import Mathlib

/-!
Verification development for the fitness-club assistant's temporal core
(`src/index.js`).  The JavaScript source is shallowly embedded: instants are
integer milliseconds since the Unix epoch (`Int`), civil times are tuples of
integers, and the ECMAScript built-ins used by the source (`Date.UTC`,
`Intl.DateTimeFormat(...).formatToParts`, `Date.prototype.toISOString`,
string formatting) are modelled by executable Lean functions implementing the
proleptic Gregorian calendar exactly as ECMA-262 specifies them.

Modelling assumptions, stated once here:
* The configured zone `TIME_ZONE` (`Asia/Omsk` by default) is modelled as a
  fixed offset of +360 minutes (UTC+6); the zone has had no DST in the
  deployment era, so `Intl` projection through it is a constant shift.
* `Date.prototype.getDay()` and zone-less `new Date(string)` parsing depend on
  the host process's local zone; the host zone is modelled as equal to the
  configured zone.
* The implementation-defined generic `new Date(string)` parser is modelled by
  `jsDateParse`, covering the ISO 8601 forms required by ECMA-262; any other
  string yields an invalid date (`none`).
* JavaScript regular expressions are embedded per pattern, with the exact
  ECMAScript semantics of `\b` (ASCII word characters only), `\d`, `\s`,
  leftmost-match and greedy-with-backtracking quantifiers.
-/

set_option maxHeartbeats 8000000
set_option maxRecDepth 4000

namespace FitnessBot

/-! ### Proleptic Gregorian calendar (model of ECMAScript `Date` arithmetic)

`civilFromDays` and `daysFromCivil` are the standard civil-from-days /
days-from-civil algorithms over the proleptic Gregorian calendar, which is the
calendar ECMA-262 prescribes for `Date.UTC` and for time-zone projection. -/

def civilFromDays (z : Int) : Int × Int × Int :=
  let era := (z + 719468) / 146097
  let doe := (z + 719468) % 146097
  let yoe := (doe - doe / 1460 + doe / 36524 - doe / 146096) / 365
  let doy := doe - (365 * yoe + yoe / 4 - yoe / 100)
  let mp := (5 * doy + 2) / 153
  let d := doy - (153 * mp + 2) / 5 + 1
  let m := if mp < 10 then mp + 3 else mp - 9
  (if m ≤ 2 then yoe + era * 400 + 1 else yoe + era * 400, m, d)

def daysFromCivil (y m d : Int) : Int :=
  let y2 := if m ≤ 2 then y - 1 else y
  let era := y2 / 400
  let yoe := y2 - era * 400
  let mp := (m + 9) % 12
  let doy := (153 * mp + 2) / 5 + d - 1
  let doe := yoe * 365 + yoe / 4 - yoe / 100 + doy
  era * 146097 + doe - 719468

/-- Core bound on the year-of-era computed by `civilFromDays`: the day count
at the start of that year is at most `doe`, and `doe` lies within the year.
Proved by splitting on the 4-year block and, where a century boundary is
straddled, on the century. -/
theorem hinnantBounds (doe : Int) (h1 : 0 ≤ doe) (h2 : doe ≤ 146096) :
    0 ≤ (doe - doe / 1460 + doe / 36524 - doe / 146096) / 365 ∧
    (doe - doe / 1460 + doe / 36524 - doe / 146096) / 365 ≤ 399 ∧
    365 * ((doe - doe / 1460 + doe / 36524 - doe / 146096) / 365)
      + ((doe - doe / 1460 + doe / 36524 - doe / 146096) / 365) / 4
      - ((doe - doe / 1460 + doe / 36524 - doe / 146096) / 365) / 100 ≤ doe ∧
    doe - (365 * ((doe - doe / 1460 + doe / 36524 - doe / 146096) / 365)
      + ((doe - doe / 1460 + doe / 36524 - doe / 146096) / 365) / 4
      - ((doe - doe / 1460 + doe / 36524 - doe / 146096) / 365) / 100) ≤ 365 := by
  have hq1 : 0 ≤ doe / 1460 := by omega
  have hq2 : doe / 1460 ≤ 100 := by omega
  set q := doe / 1460 with hq
  interval_cases q <;>
    first
    | omega
    | (have he : doe / 36524 = 0 ∨ doe / 36524 = 1 ∨ doe / 36524 = 2 ∨
          doe / 36524 = 3 ∨ doe / 36524 = 4 := by omega
       rcases he with he | he | he | he | he <;> omega)

/-- `daysFromCivil` inverts `civilFromDays` on every day number. -/
theorem daysFromCivil_civilFromDays (z : Int) :
    daysFromCivil (civilFromDays z).1 (civilFromDays z).2.1 (civilFromDays z).2.2 = z := by
  have hb := hinnantBounds ((z + 719468) % 146097) (by omega) (by omega)
  simp only [civilFromDays, daysFromCivil]
  set era := (z + 719468) / 146097 with hera
  set doe := (z + 719468) % 146097 with hdoe
  set yoe := (doe - doe / 1460 + doe / 36524 - doe / 146096) / 365 with hyoe
  set doy := doe - (365 * yoe + yoe / 4 - yoe / 100) with hdoy
  set mp := (5 * doy + 2) / 153 with hmp
  have hyb : 0 ≤ yoe ∧ yoe ≤ 399 := ⟨hb.1, hb.2.1⟩
  have hdb : 0 ≤ doy ∧ doy ≤ 365 := ⟨by omega, hb.2.2.2⟩
  have hmb : 0 ≤ mp ∧ mp ≤ 11 := by constructor <;> omega
  have h400 : (yoe + era * 400) / 400 = era := by omega
  by_cases hc : mp < 10
  · simp only [if_pos hc]
    have h2 : ¬ (mp + 3 ≤ 2) := by omega
    simp only [if_neg h2]
    have hm12 : (mp + 3 + 9) % 12 = mp := by omega
    rw [hm12, h400]
    rw [show yoe + era * 400 - era * 400 = yoe from by ring]
    omega
  · simp only [if_neg hc]
    have h2 : mp - 9 ≤ 2 := by omega
    simp only [if_pos h2]
    have hcan : yoe + era * 400 + 1 - 1 = yoe + era * 400 := by ring
    rw [hcan]
    have hm12 : (mp - 9 + 9) % 12 = mp := by omega
    rw [hm12, h400]
    rw [show yoe + era * 400 - era * 400 = yoe from by ring]
    omega

/-- The month produced by `civilFromDays` lies in `[1, 12]` and the day in
`[1, 31]`. -/
theorem civilFromDays_ranges (z : Int) :
    1 ≤ (civilFromDays z).2.1 ∧ (civilFromDays z).2.1 ≤ 12 ∧
    1 ≤ (civilFromDays z).2.2 ∧ (civilFromDays z).2.2 ≤ 31 := by
  have hb := hinnantBounds ((z + 719468) % 146097) (by omega) (by omega)
  simp only [civilFromDays]
  split_ifs <;> omega

/-- Civil (wall-clock) reading of an instant: a model of the field record the
source assembles from `Intl.DateTimeFormat(...).formatToParts`. -/
structure CivilParts where
  year : Int
  month : Int
  day : Int
  hour : Int
  minute : Int
  second : Int
  deriving DecidableEq, Repr

/-- Decompose an epoch-millisecond instant into UTC civil fields (model of
ECMAScript time decomposition; sub-second milliseconds are truncated away,
as `formatToParts` does). -/
def civilFromMs (x : Int) : CivilParts :=
  let days := x / 86400000
  let msod := x % 86400000
  let ymd := civilFromDays days
  ⟨ymd.1, ymd.2.1, ymd.2.2, msod / 3600000, msod / 60000 % 60, msod / 1000 % 60⟩

/-- Model of `Date.UTC(y, mo - 1, d, h, mi, s, milli)`, including ECMAScript's
month and day rollover behaviour (`MakeDay`). -/
def jsDateUTC (y mo d h mi s milli : Int) : Int :=
  let m0 := mo - 1
  (daysFromCivil (y + m0 / 12) (m0 % 12 + 1) 1 + (d - 1)) * 86400000
    + h * 3600000 + mi * 60000 + s * 1000 + milli

/-- For an in-range month, `jsDateUTC` is plain `daysFromCivil` plus the
time-of-day, and the day argument enters linearly. -/
theorem jsDateUTC_valid (y mo d h mi s milli : Int) (h1 : 1 ≤ mo) (h2 : mo ≤ 12) :
    jsDateUTC y mo d h mi s milli
      = daysFromCivil y mo d * 86400000 + h * 3600000 + mi * 60000 + s * 1000 + milli := by
  have hdiv : (mo - 1) / 12 = 0 := by omega
  have hmod : (mo - 1) % 12 = mo - 1 := by omega
  simp only [jsDateUTC, daysFromCivil, hdiv, hmod]
  split_ifs <;> omega

/-- Recomposing the civil fields of an instant yields the instant truncated to
whole seconds. -/
theorem jsDateUTC_civilFromMs (x : Int) :
    jsDateUTC (civilFromMs x).year (civilFromMs x).month (civilFromMs x).day
      (civilFromMs x).hour (civilFromMs x).minute (civilFromMs x).second 0
      = x - x % 1000 := by
  have hr := civilFromDays_ranges (x / 86400000)
  have hrt := daysFromCivil_civilFromDays (x / 86400000)
  simp only [civilFromMs] at *
  rw [jsDateUTC_valid _ _ _ _ _ _ _ hr.1 hr.2.1, hrt]
  omega

/-- Recomposing the civil fields with the seconds field zeroed yields the
instant truncated to whole minutes. -/
theorem jsDateUTC_civilFromMs_min (x : Int) :
    jsDateUTC (civilFromMs x).year (civilFromMs x).month (civilFromMs x).day
      (civilFromMs x).hour (civilFromMs x).minute 0 0
      = x - x % 60000 := by
  have hr := civilFromDays_ranges (x / 86400000)
  have hrt := daysFromCivil_civilFromDays (x / 86400000)
  simp only [civilFromMs] at *
  rw [jsDateUTC_valid _ _ _ _ _ _ _ hr.1 hr.2.1, hrt]
  omega

/-! ### Time-zone projection (`getTzParts`, `getTzOffsetMinutes`,
`zonedDateTimeToUTCISO`) -/

/-- Offset of the configured zone, in milliseconds.  `Asia/Omsk` is modelled
as a fixed UTC+6. -/
def tzOffsetMs : Int := 21600000

/-- Model of `getTzParts(date, TIME_ZONE)`: civil fields of the instant in the
configured zone. -/
def getTzParts (t : Int) : CivilParts := civilFromMs (t + tzOffsetMs)

/-- Model of `Math.round(n / d)` for integer `n` and positive integer `d`
(round half toward positive infinity). -/
def jsRoundDiv (n d : Int) : Int := (2 * n + d) / (2 * d)

/-- Model of `getTzOffsetMinutes(date, TIME_ZONE)`: recompose the zone's civil
fields as if they were UTC and round the difference to minutes. -/
def getTzOffsetMinutes (t : Int) : Int :=
  let p := getTzParts t
  let asUTC := jsDateUTC p.year p.month p.day p.hour p.minute p.second 0
  jsRoundDiv (asUTC - t) 60000

/-- The computed offset is the constant 360 minutes at every instant. -/
theorem getTzOffsetMinutes_eq (t : Int) : getTzOffsetMinutes t = 360 := by
  have h := jsDateUTC_civilFromMs (t + tzOffsetMs)
  simp only [getTzOffsetMinutes, getTzParts, jsRoundDiv, tzOffsetMs] at *
  omega

/-- Model of `zonedDateTimeToUTCISO(year, month, day, hour, minute, TIME_ZONE)`:
the instant (epoch ms) of a zone-local civil time, obtained by the source's
bounded iterative offset refinement.  The source wraps this instant in an ISO
string; callers that need the string apply `toISOStringUTC`. -/
def zonedDateTimeToUTC (y mo d h mi : Int) : Int :=
  let base := jsDateUTC y mo d h mi 0 0
  let off0 := getTzOffsetMinutes base
  let t0 := base - off0 * 60000
  if (t0 - base).natAbs < 60000 then t0
  else base - getTzOffsetMinutes t0 * 60000

/-- The refinement loop converges to the constant-offset conversion. -/
theorem zonedDateTimeToUTC_eq (y mo d h mi : Int) :
    zonedDateTimeToUTC y mo d h mi = jsDateUTC y mo d h mi 0 0 - tzOffsetMs := by
  simp only [zonedDateTimeToUTC, getTzOffsetMinutes_eq, tzOffsetMs]
  norm_num

/-- Unprojecting the projected civil fields (seconds dropped, as
`parseLocalPlainToDate` does) returns the instant truncated to the minute. -/
theorem zonedDateTimeToUTC_getTzParts (t : Int) :
    zonedDateTimeToUTC (getTzParts t).year (getTzParts t).month (getTzParts t).day
      (getTzParts t).hour (getTzParts t).minute = t - t % 60000 := by
  rw [zonedDateTimeToUTC_eq]
  have h := jsDateUTC_civilFromMs_min (t + tzOffsetMs)
  simp only [getTzParts, tzOffsetMs] at *
  omega

/-! ### Decimal formatting (models of `String(n)`, `padStart`, `parseInt`) -/

/-- Decimal digit characters of a natural number, with explicit fuel so that
the definition is structurally recursive (`n + 1` units always suffice). -/
def natDigits : Nat → Nat → List Char
  | 0, _ => []
  | fuel + 1, n =>
    if n < 10 then [Char.ofNat (48 + n)]
    else natDigits fuel (n / 10) ++ [Char.ofNat (48 + n % 10)]

/-- Decimal digit characters of a natural number, as `String(n)` produces. -/
def jsNatString (n : Nat) : List Char := natDigits (n + 1) n

theorem natDigits_congr : ∀ f1 f2 n, n < f1 → n < f2 → natDigits f1 n = natDigits f2 n
  | 0, _, _, h1, _ => absurd h1 (by omega)
  | _ + 1, 0, _, _, h2 => absurd h2 (by omega)
  | f1 + 1, f2 + 1, n, h1, h2 => by
    simp only [natDigits]
    by_cases h : n < 10
    · simp [h]
    · simp only [if_neg h]
      rw [natDigits_congr f1 f2 (n / 10) (by omega) (by omega)]

theorem jsNatString_step (n : Nat) (h : ¬ n < 10) :
    jsNatString n = jsNatString (n / 10) ++ [Char.ofNat (48 + n % 10)] := by
  show natDigits (n + 1) n = _
  simp only [natDigits, if_neg h]
  rw [natDigits_congr n (n / 10 + 1) (n / 10) (by omega) (by omega)]
  rfl

/-- Model of `String(i)` for an integer. -/
def jsIntString (i : Int) : List Char :=
  if i < 0 then '-' :: jsNatString i.natAbs else jsNatString i.toNat

/-- Model of `str.padStart(w, '0')`. -/
def padStart (w : Nat) (l : List Char) : List Char :=
  List.replicate (w - l.length) '0' ++ l

/-- Model of `String(i).padStart(2, '0')`. -/
def pad2 (i : Int) : List Char := padStart 2 (jsIntString i)

/-- Numeric value of a digit character (model of what `parseInt` does per
digit). -/
def digitVal (c : Char) : Nat := c.toNat - 48

/-- Value of a two-digit capture. -/
def val2 (a b : Char) : Int := ((10 * digitVal a + digitVal b : Nat) : Int)

/-- Value of a four-digit capture. -/
def val4 (a b c d : Char) : Int :=
  ((1000 * digitVal a + 100 * digitVal b + 10 * digitVal c + digitVal d : Nat) : Int)

theorem digitVal_char (d : Nat) (h : d < 10) :
    digitVal (Char.ofNat (48 + d)) = d ∧ (Char.ofNat (48 + d)).isDigit = true := by
  interval_cases d <;> exact ⟨by decide, by decide⟩

theorem jsNatString_small (n : Nat) (h : n < 10) :
    jsNatString n = [Char.ofNat (48 + n)] := by
  show natDigits (n + 1) n = _
  simp only [natDigits, if_pos h]

theorem jsNatString_two (n : Nat) (h1 : 10 ≤ n) (h2 : n ≤ 99) :
    jsNatString n = [Char.ofNat (48 + n / 10), Char.ofNat (48 + n % 10)] := by
  rw [jsNatString_step n (by omega), jsNatString_small (n / 10) (by omega)]
  rfl

theorem jsNatString_four (n : Nat) (h1 : 1000 ≤ n) (h2 : n ≤ 9999) :
    jsNatString n = [Char.ofNat (48 + n / 1000), Char.ofNat (48 + n / 100 % 10),
      Char.ofNat (48 + n / 10 % 10), Char.ofNat (48 + n % 10)] := by
  rw [jsNatString_step n (by omega), jsNatString_step (n / 10) (by omega)]
  rw [show n / 10 / 10 = n / 100 by omega]
  rw [jsNatString_two (n / 100) (by omega) (by omega)]
  rw [show n / 100 / 10 = n / 1000 by omega]
  rfl

theorem pad2_eq (i : Int) (h1 : 0 ≤ i) (h2 : i ≤ 99) :
    pad2 i = [Char.ofNat (48 + i.toNat / 10), Char.ofNat (48 + i.toNat % 10)] := by
  have hn : i.toNat ≤ 99 := by omega
  have hnn : ¬ i < 0 := by omega
  by_cases h : i.toNat < 10
  · have hs : jsIntString i = [Char.ofNat (48 + i.toNat)] := by
      simp only [jsIntString, if_neg hnn]
      exact jsNatString_small i.toNat h
    rw [pad2, hs, show i.toNat / 10 = 0 by omega, show i.toNat % 10 = i.toNat by omega]
    show ('0' :: [Char.ofNat (48 + i.toNat)]) = [Char.ofNat (48 + 0), Char.ofNat (48 + i.toNat)]
    simp only [List.cons.injEq, and_true]
  · have hs : jsIntString i = [Char.ofNat (48 + i.toNat / 10), Char.ofNat (48 + i.toNat % 10)] := by
      simp only [jsIntString, if_neg hnn]
      exact jsNatString_two i.toNat (by omega) hn
    rw [pad2, hs]
    rfl

/-! ### `formatLocalPlain`, `parseLocalPlainToDate` and the generic
`new Date(string)` parser model -/

/-- Model of `formatLocalPlain(date, TIME_ZONE)`: the canonical offset-free
local string `YYYY-MM-DDTHH:MM:SS`. -/
def formatLocalPlain (t : Int) : String :=
  let p := getTzParts t
  ⟨jsIntString p.year ++ '-' :: pad2 p.month ++ '-' :: pad2 p.day ++
    'T' :: pad2 p.hour ++ ':' :: pad2 p.minute ++ ':' :: pad2 p.second⟩

/-- Model of `Date.prototype.toISOString` for the modern year range. -/
def toISOStringUTC (t : Int) : String :=
  let p := civilFromMs t
  ⟨padStart 4 (jsIntString p.year) ++ '-' :: pad2 p.month ++ '-' :: pad2 p.day ++
    'T' :: pad2 p.hour ++ ':' :: pad2 p.minute ++ ':' :: pad2 p.second ++
    '.' :: padStart 3 (jsIntString (t % 1000)) ++ ['Z']⟩

/-- Capture extraction of the source's anchored fixed-width regular expression
`^(\d{4})-(\d{2})-(\d{2})T(\d{2}):(\d{2}):(\d{2})$`. -/
def lpFields (l : List Char) : Option (Int × Int × Int × Int × Int × Int) :=
  match l with
  | [y1, y2, y3, y4, a, m1, m2, b, d1, d2, c, h1, h2, e, i1, i2, f, s1, s2] =>
    if a == '-' && b == '-' && c == 'T' && e == ':' && f == ':' &&
        y1.isDigit && y2.isDigit && y3.isDigit && y4.isDigit &&
        m1.isDigit && m2.isDigit && d1.isDigit && d2.isDigit &&
        h1.isDigit && h2.isDigit && i1.isDigit && i2.isDigit &&
        s1.isDigit && s2.isDigit then
      some (val4 y1 y2 y3 y4, val2 m1 m2, val2 d1 d2, val2 h1 h2, val2 i1 i2, val2 s1 s2)
    else none
  | _ => none

/-- Gregorian leap-year predicate (model of the range validation the
implementation-defined ISO `Date` parser performs). -/
def isLeapYear (y : Int) : Bool := (y % 4 == 0 && y % 100 != 0) || y % 400 == 0

def daysInMonth (y m : Int) : Int :=
  if m = 2 then (if isLeapYear y then 29 else 28)
  else if m = 4 ∨ m = 6 ∨ m = 9 ∨ m = 11 then 30 else 31

def validYmd (y mo d : Int) : Bool :=
  1 ≤ mo && mo ≤ 12 && 1 ≤ d && d ≤ daysInMonth y mo

/-- Model of the generic `new Date(string)` parser: the ISO 8601 forms
ECMA-262 requires (date-only is UTC; date-time without offset is host local
time, the host zone being the configured zone; a trailing `Z` marks UTC).
Any other string yields an invalid date, i.e. `none`. -/
def jsDateParse (s : String) : Option Int :=
  match s.data with
  | [y1, y2, y3, y4, '-', m1, m2, '-', d1, d2] =>
    if y1.isDigit && y2.isDigit && y3.isDigit && y4.isDigit &&
        m1.isDigit && m2.isDigit && d1.isDigit && d2.isDigit &&
        validYmd (val4 y1 y2 y3 y4) (val2 m1 m2) (val2 d1 d2) then
      some (jsDateUTC (val4 y1 y2 y3 y4) (val2 m1 m2) (val2 d1 d2) 0 0 0 0)
    else none
  | [y1, y2, y3, y4, '-', m1, m2, '-', d1, d2, 'T', h1, h2, ':', i1, i2] =>
    if y1.isDigit && y2.isDigit && y3.isDigit && y4.isDigit &&
        m1.isDigit && m2.isDigit && d1.isDigit && d2.isDigit &&
        h1.isDigit && h2.isDigit && i1.isDigit && i2.isDigit &&
        validYmd (val4 y1 y2 y3 y4) (val2 m1 m2) (val2 d1 d2) &&
        val2 h1 h2 ≤ 23 && val2 i1 i2 ≤ 59 then
      some (jsDateUTC (val4 y1 y2 y3 y4) (val2 m1 m2) (val2 d1 d2)
        (val2 h1 h2) (val2 i1 i2) 0 0 - tzOffsetMs)
    else none
  | [y1, y2, y3, y4, '-', m1, m2, '-', d1, d2, 'T', h1, h2, ':', i1, i2, ':', s1, s2] =>
    if y1.isDigit && y2.isDigit && y3.isDigit && y4.isDigit &&
        m1.isDigit && m2.isDigit && d1.isDigit && d2.isDigit &&
        h1.isDigit && h2.isDigit && i1.isDigit && i2.isDigit &&
        s1.isDigit && s2.isDigit &&
        validYmd (val4 y1 y2 y3 y4) (val2 m1 m2) (val2 d1 d2) &&
        val2 h1 h2 ≤ 23 && val2 i1 i2 ≤ 59 && val2 s1 s2 ≤ 59 then
      some (jsDateUTC (val4 y1 y2 y3 y4) (val2 m1 m2) (val2 d1 d2)
        (val2 h1 h2) (val2 i1 i2) (val2 s1 s2) 0 - tzOffsetMs)
    else none
  | [y1, y2, y3, y4, '-', m1, m2, '-', d1, d2, 'T', h1, h2, ':', i1, i2, ':', s1, s2,
      '.', f1, f2, f3, 'Z'] =>
    if y1.isDigit && y2.isDigit && y3.isDigit && y4.isDigit &&
        m1.isDigit && m2.isDigit && d1.isDigit && d2.isDigit &&
        h1.isDigit && h2.isDigit && i1.isDigit && i2.isDigit &&
        s1.isDigit && s2.isDigit && f1.isDigit && f2.isDigit && f3.isDigit &&
        validYmd (val4 y1 y2 y3 y4) (val2 m1 m2) (val2 d1 d2) &&
        val2 h1 h2 ≤ 23 && val2 i1 i2 ≤ 59 && val2 s1 s2 ≤ 59 then
      some (jsDateUTC (val4 y1 y2 y3 y4) (val2 m1 m2) (val2 d1 d2)
        (val2 h1 h2) (val2 i1 i2) (val2 s1 s2)
        ((100 * digitVal f1 + 10 * digitVal f2 + digitVal f3 : Nat) : Int))
    else none
  | _ => none

/-- Model of `parseLocalPlainToDate(localPlain)`: match the canonical shape
(the seconds capture is parsed but dropped, exactly as in the source, which
passes only year through minute to `zonedDateTimeToUTCISO`); otherwise fall
back to the generic parser. -/
def parseLocalPlainToDate (s : String) : Option Int :=
  match lpFields s.data with
  | some (y, mo, d, h, mi, _s) => some (zonedDateTimeToUTC y mo d h mi)
  | none => jsDateParse s

/-! ### Round-trip lemmas for the canonical local string -/

theorem getTzParts_ranges (t : Int) :
    1 ≤ (getTzParts t).month ∧ (getTzParts t).month ≤ 12 ∧
    1 ≤ (getTzParts t).day ∧ (getTzParts t).day ≤ 31 ∧
    0 ≤ (getTzParts t).hour ∧ (getTzParts t).hour ≤ 23 ∧
    0 ≤ (getTzParts t).minute ∧ (getTzParts t).minute ≤ 59 ∧
    0 ≤ (getTzParts t).second ∧ (getTzParts t).second ≤ 59 := by
  have h := civilFromDays_ranges ((t + tzOffsetMs) / 86400000)
  simp only [getTzParts, civilFromMs]
  refine ⟨h.1, h.2.1, h.2.2.1, h.2.2.2, ?_, ?_, ?_, ?_, ?_, ?_⟩ <;> omega

theorem lpFields_format (t : Int) (h1 : 1000 ≤ (getTzParts t).year)
    (h2 : (getTzParts t).year ≤ 9999) :
    lpFields (formatLocalPlain t).data =
      some ((getTzParts t).year, (getTzParts t).month, (getTzParts t).day,
        (getTzParts t).hour, (getTzParts t).minute, (getTzParts t).second) := by
  obtain ⟨hm1, hm2, hd1, hd2, hh1, hh2, hi1, hi2, hs1, hs2⟩ := getTzParts_ranges t
  set p := getTzParts t with hp
  have hyy : jsIntString p.year = [Char.ofNat (48 + p.year.toNat / 1000),
      Char.ofNat (48 + p.year.toNat / 100 % 10), Char.ofNat (48 + p.year.toNat / 10 % 10),
      Char.ofNat (48 + p.year.toNat % 10)] := by
    simp only [jsIntString, if_neg (by omega : ¬ p.year < 0)]
    exact jsNatString_four p.year.toNat (by omega) (by omega)
  have hfmt : (formatLocalPlain t).data =
      jsIntString p.year ++ '-' :: pad2 p.month ++ '-' :: pad2 p.day ++
        'T' :: pad2 p.hour ++ ':' :: pad2 p.minute ++ ':' :: pad2 p.second := rfl
  rw [hfmt, hyy, pad2_eq p.month (by omega) (by omega), pad2_eq p.day (by omega) (by omega),
    pad2_eq p.hour (by omega) (by omega), pad2_eq p.minute (by omega) (by omega),
    pad2_eq p.second (by omega) (by omega)]
  have dig : ∀ d : Nat, d < 10 →
      digitVal (Char.ofNat (48 + d)) = d ∧ (Char.ofNat (48 + d)).isDigit = true :=
    digitVal_char
  simp only [List.cons_append, List.nil_append, lpFields]
  rw [if_pos]
  · have e1 := (dig (p.year.toNat / 1000) (by omega)).1
    have e2 := (dig (p.year.toNat / 100 % 10) (by omega)).1
    have e3 := (dig (p.year.toNat / 10 % 10) (by omega)).1
    have e4 := (dig (p.year.toNat % 10) (by omega)).1
    have e5 := (dig (p.month.toNat / 10) (by omega)).1
    have e6 := (dig (p.month.toNat % 10) (by omega)).1
    have e7 := (dig (p.day.toNat / 10) (by omega)).1
    have e8 := (dig (p.day.toNat % 10) (by omega)).1
    have e9 := (dig (p.hour.toNat / 10) (by omega)).1
    have e10 := (dig (p.hour.toNat % 10) (by omega)).1
    have e11 := (dig (p.minute.toNat / 10) (by omega)).1
    have e12 := (dig (p.minute.toNat % 10) (by omega)).1
    have e13 := (dig (p.second.toNat / 10) (by omega)).1
    have e14 := (dig (p.second.toNat % 10) (by omega)).1
    simp only [val4, val2, e1, e2, e3, e4, e5, e6, e7, e8, e9, e10, e11, e12, e13, e14]
    have : ∀ q : Int, 0 ≤ q → ((1000 * (q.toNat / 1000) + 100 * (q.toNat / 100 % 10)
        + 10 * (q.toNat / 10 % 10) + q.toNat % 10 : Nat) : Int) = q := by
      intro q hq
      omega
    rw [this p.year (by omega)]
    have h2d : ∀ q : Int, 0 ≤ q → q ≤ 99 →
        ((10 * (q.toNat / 10) + q.toNat % 10 : Nat) : Int) = q := by
      intro q hq1 hq2
      omega
    rw [h2d p.month (by omega) (by omega), h2d p.day (by omega) (by omega),
      h2d p.hour (by omega) (by omega), h2d p.minute (by omega) (by omega),
      h2d p.second (by omega) (by omega)]
  · simp only [Bool.and_eq_true, beq_self_eq_true, true_and]
    refine ⟨⟨⟨⟨⟨⟨⟨⟨⟨⟨⟨⟨⟨?_, ?_⟩, ?_⟩, ?_⟩, ?_⟩, ?_⟩, ?_⟩, ?_⟩, ?_⟩, ?_⟩, ?_⟩, ?_⟩, ?_⟩, ?_⟩ <;>
      exact (digitVal_char _ (by omega)).2

/-- Round trip of the canonical local string at the instant level:
parsing the formatted string recovers the instant truncated to the minute. -/
theorem parseLocalPlain_format (t : Int) (h1 : 1000 ≤ (getTzParts t).year)
    (h2 : (getTzParts t).year ≤ 9999) :
    parseLocalPlainToDate (formatLocalPlain t) = some (t - t % 60000) := by
  unfold parseLocalPlainToDate
  rw [lpFields_format t h1 h2]
  show some (zonedDateTimeToUTC (getTzParts t).year (getTzParts t).month (getTzParts t).day
    (getTzParts t).hour (getTzParts t).minute) = some (t - t % 60000)
  rw [zonedDateTimeToUTC_getTzParts]

/-! ### ECMAScript regular-expression semantics, embedded per pattern

JavaScript `\w` (and hence `\b`) covers only ASCII letters, digits and the
underscore; Cyrillic letters are *not* word characters.  `\b` holds at a
position iff exactly one of the two adjacent characters is a word character
(out of range counts as non-word). -/

def asciiWord (c : Char) : Bool :=
  decide (97 ≤ c.toNat ∧ c.toNat ≤ 122) || decide (65 ≤ c.toNat ∧ c.toNat ≤ 90) ||
    decide (48 ≤ c.toNat ∧ c.toNat ≤ 57) || c == '_'

/-- The character set of `\s` (also used by `String.prototype.trim`). -/
def jsSpace (c : Char) : Bool :=
  decide (9 ≤ c.toNat ∧ c.toNat ≤ 13) || c.toNat == 32 || c.toNat == 160 ||
    c.toNat == 5760 || decide (8192 ≤ c.toNat ∧ c.toNat ≤ 8202) || c.toNat == 8232 ||
    c.toNat == 8233 || c.toNat == 8239 || c.toNat == 8287 || c.toNat == 12288 ||
    c.toNat == 65279

def wordAt (s : List Char) (i : Nat) : Bool :=
  match s[i]? with
  | some c => asciiWord c
  | none => false

def boundaryAt (s : List Char) (i : Nat) : Bool :=
  (if i = 0 then false else wordAt s (i - 1)) != wordAt s i

/-- Literal match of `lit` at position `i`. -/
def litAt (s : List Char) (lit : List Char) (i : Nat) : Bool :=
  match lit with
  | [] => true
  | c :: cs => s[i]? == some c && litAt s cs (i + 1)

/-- Plain substring test: model of `/(lit)/.test(s)` for a literal pattern. -/
def containsSub (s pat : List Char) : Bool :=
  (List.range (s.length + 1)).any fun i => litAt s pat i

def containsSubS (s pat : String) : Bool := containsSub s.data pat.data

/-- Model of `String.prototype.toLowerCase` restricted to ASCII and the
Russian alphabet (the only scripts the source's vocabulary uses). -/
def jsLowerChar (c : Char) : Char :=
  if 65 ≤ c.toNat ∧ c.toNat ≤ 90 then Char.ofNat (c.toNat + 32)
  else if 1040 ≤ c.toNat ∧ c.toNat ≤ 1071 then Char.ofNat (c.toNat + 32)
  else if c.toNat = 1025 then Char.ofNat 1105
  else c

def jsLower (s : String) : String := ⟨s.data.map jsLowerChar⟩

/-- Model of `String.prototype.trim`. -/
def jsTrim (s : String) : String :=
  ⟨((s.data.dropWhile jsSpace).reverse.dropWhile jsSpace).reverse⟩

/-- Digit lookup: value of the digit at position `i`, if any (`\d`). -/
def digAt (s : List Char) (i : Nat) : Option Nat :=
  match s[i]? with
  | some c => if c.isDigit then some (digitVal c) else none
  | none => none

/-- End position of `stem[cls]` at `i` (`cls = []` means no character class). -/
def stemEnd (s stem cls : List Char) (i : Nat) : Option Nat :=
  if litAt s stem i then
    if cls.isEmpty then some (i + stem.length)
    else match s[i + stem.length]? with
      | some c => if cls.contains c then some (i + stem.length + 1) else none
      | none => none
  else none

/-- Test of an alternative of the form `\b stem[cls] \b`. -/
def testWordPat (s stem cls : List Char) : Bool :=
  (List.range (s.length + 1)).any fun i =>
    boundaryAt s i &&
      (match stemEnd s stem cls i with
       | some j => boundaryAt s j
       | none => false)

/-- Test of an alternative of the form `\b pre \s+ stem[cls] \b`. -/
def testPrePat (s pre stem cls : List Char) : Bool :=
  (List.range (s.length + 1)).any fun i =>
    boundaryAt s i && litAt s pre i &&
      (let ws := ((s.drop (i + pre.length)).takeWhile jsSpace).length
       decide (1 ≤ ws) &&
         (match stemEnd s stem cls (i + pre.length + ws) with
          | some j => boundaryAt s j
          | none => false))

/-- The source's ordered weekday rules (`weekdayDefs`), first match wins.
Each rule is `\bW\b|\bв\s+W'\b` with the source's exact stems, declension
classes, and the `[уa]` class of the Saturday rule (whose second character is
the ASCII letter `a`). -/
def weekdayFind (s : List Char) : Option Int :=
  if testWordPat s "понедельник".data [] || testPrePat s "в".data "понедельник".data [] then some 1
  else if testWordPat s "вторник".data [] || testPrePat s "во".data "вторник".data [] then some 2
  else if testWordPat s "сред".data "ауы".data || testPrePat s "в".data "сред".data "ау".data then some 3
  else if testWordPat s "четверг".data [] || testPrePat s "в".data "четверг".data [] then some 4
  else if testWordPat s "пятниц".data "ауы".data || testPrePat s "в".data "пятниц".data "ау".data then some 5
  else if testWordPat s "суббот".data "ауы".data || testPrePat s "в".data "суббот".data "уa".data then some 6
  else if testWordPat s "воскресенье".data [] || testPrePat s "в".data "воскресенье".data [] then some 0
  else none

/-- Tail of the time patterns: the optional `(?::(\d{2}))?` (greedy, tried
first) followed by `\b`; `h` is the already-parsed hour value. -/
def timeTail (s : List Char) (k : Nat) (h : Nat) : Option (Nat × Nat) :=
  (if s[k]? == some ':' then
     match digAt s (k + 1), digAt s (k + 2) with
     | some a, some b => if boundaryAt s (k + 3) then some (h, 10 * a + b) else none
     | _, _ => none
   else none) <|>
  (if boundaryAt s k then some (h, 0) else none)

/-- Match of `\bв\s*(\d{1,2})(?::(\d{2}))?\b` at position `i`, with the greedy
two-digit hour tried before the one-digit backtrack. -/
def timeVAt (s : List Char) (i : Nat) : Option (Nat × Nat) :=
  if boundaryAt s i && s[i]? == some 'в' then
    let j := i + 1 + ((s.drop (i + 1)).takeWhile jsSpace).length
    match digAt s j with
    | none => none
    | some d1 =>
      match digAt s (j + 1) with
      | some d2 => timeTail s (j + 2) (10 * d1 + d2) <|> timeTail s (j + 1) d1
      | none => timeTail s (j + 1) d1
  else none

/-- Match of `\b(\d{1,2}):(\d{2})\b` at position `i` (the colon here is
mandatory). -/
def colonTail (s : List Char) (k : Nat) (h : Nat) : Option (Nat × Nat) :=
  if s[k]? == some ':' then
    match digAt s (k + 1), digAt s (k + 2) with
    | some a, some b => if boundaryAt s (k + 3) then some (h, 10 * a + b) else none
    | _, _ => none
  else none

def timeColonAt (s : List Char) (i : Nat) : Option (Nat × Nat) :=
  if boundaryAt s i then
    match digAt s i with
    | none => none
    | some d1 =>
      match digAt s (i + 1) with
      | some d2 => colonTail s (i + 2) (10 * d1 + d2) <|> colonTail s (i + 1) d1
      | none => colonTail s (i + 1) d1
  else none

/-- Model of the source's `extractTime`: prefer `в H[:MM]`, else bare `H:MM`;
clamp hour to 0..23 and minute to 0..59; `(found, h, m)`. -/
def extractTime (source : List Char) : Bool × Int × Int :=
  match (List.range (source.length + 1)).findSome? (timeVAt source) with
  | some (h, m) => (true, min 23 (max 0 (h : Int)), min 59 (max 0 (m : Int)))
  | none =>
    match (List.range (source.length + 1)).findSome? (timeColonAt source) with
    | some (h, m) => (true, min 23 (max 0 (h : Int)), min 59 (max 0 (m : Int)))
    | none => (false, 12, 0)

/-- Optional year group of `\b(\d{1,2})[.](\d{1,2})(?:[.](\d{4}))?\b` at
position `k` (just after the month digits): with-year tried first, then the
skipped group followed by `\b`.  Returns `(day, month, year?, length)`. -/
def dmYear (s : List Char) (dv dl mv ml : Nat) (k : Nat) :
    Option (Int × Int × Option Int × Nat) :=
  (if s[k]? == some '.' then
     match digAt s (k + 1), digAt s (k + 2), digAt s (k + 3), digAt s (k + 4) with
     | some y1, some y2, some y3, some y4 =>
       if boundaryAt s (k + 5) then
         some ((dv : Int), (mv : Int),
           some ((1000 * y1 + 100 * y2 + 10 * y3 + y4 : Nat) : Int), dl + 1 + ml + 5)
       else none
     | _, _, _, _ => none
   else none) <|>
  (if boundaryAt s k then some ((dv : Int), (mv : Int), none, dl + 1 + ml) else none)

def dmMonth (s : List Char) (i : Nat) (dv dl : Nat) : Option (Int × Int × Option Int × Nat) :=
  if s[i + dl]? == some '.' then
    match digAt s (i + dl + 1) with
    | none => none
    | some b1 =>
      (match digAt s (i + dl + 2) with
       | some b2 => dmYear s dv dl (10 * b1 + b2) 2 (i + dl + 3)
       | none => none) <|> dmYear s dv dl b1 1 (i + dl + 2)
  else none

def dmAt (s : List Char) (i : Nat) : Option (Int × Int × Option Int × Nat) :=
  if boundaryAt s i then
    match digAt s i with
    | none => none
    | some a1 =>
      (match digAt s (i + 1) with
       | some a2 => dmMonth s i (10 * a1 + a2) 2
       | none => none) <|> dmMonth s i a1 1
  else none

/-- Leftmost match of the numeric-date pattern, together with its start
position (needed to cut the matched substring out of the input). -/
def dmFind (s : List Char) : Option (Nat × Int × Int × Option Int × Nat) :=
  (List.range (s.length + 1)).findSome? fun i => (dmAt s i).map fun r => (i, r)

/-- Model of `str.replace(pat, ' ')` for a plain string pattern: replace the
first literal occurrence. -/
def replaceFirstL (s pat : List Char) : List Char :=
  match (List.range (s.length + 1)).findSome?
      (fun k => if litAt s pat k then some k else none) with
  | some k => s.take k ++ ' ' :: s.drop (k + pat.length)
  | none => s

/-- Match of `\b\d{4}-\d{2}-\d{2}\b` at position `i`. -/
def isoDateAt (s : List Char) (i : Nat) : Bool :=
  boundaryAt s i && (digAt s i).isSome && (digAt s (i + 1)).isSome &&
    (digAt s (i + 2)).isSome && (digAt s (i + 3)).isSome && s[i + 4]? == some '-' &&
    (digAt s (i + 5)).isSome && (digAt s (i + 6)).isSome && s[i + 7]? == some '-' &&
    (digAt s (i + 8)).isSome && (digAt s (i + 9)).isSome && boundaryAt s (i + 10)

/-- Optional `([.]\d{2,4})?` followed by `\b`, as a boolean test. -/
def dmShortYear (s : List Char) (k : Nat) : Bool :=
  (s[k]? == some '.' && (digAt s (k + 1)).isSome && (digAt s (k + 2)).isSome &&
    ((digAt s (k + 3)).isSome && (digAt s (k + 4)).isSome && boundaryAt s (k + 5) ||
     (digAt s (k + 3)).isSome && boundaryAt s (k + 4) ||
     boundaryAt s (k + 3))) ||
  boundaryAt s k

/-- Match of `\b\d{1,2}[.]\d{1,2}([.]\d{2,4})?\b` at position `i`, as a
boolean test. -/
def dmShortAt (s : List Char) (i : Nat) : Bool :=
  boundaryAt s i && (digAt s i).isSome &&
    ((if (digAt s (i + 1)).isSome then [2, 1] else [1]).any fun dl =>
      s[i + dl]? == some '.' && (digAt s (i + dl + 1)).isSome &&
        ((if (digAt s (i + dl + 2)).isSome then [2, 1] else [1]).any fun ml =>
          dmShortYear s (i + dl + 1 + ml)))

/-- Model of `hasExplicitCalendarDate(input)`. -/
def hasExplicitCalendarDate (input : String) : Bool :=
  let s := (jsLower input).data
  (List.range (s.length + 1)).any (isoDateAt s) ||
    (List.range (s.length + 1)).any (dmShortAt s)

/-- Model of `containsRelativeOrWeekday(input)`: plain substring tests for
the relative words and the nominative weekday names. -/
def containsRelativeOrWeekday (input : String) : Bool :=
  let s := (jsLower input).data
  containsSub s "сегодня".data || containsSub s "завтра".data ||
    containsSub s "послезавтра".data ||
    containsSub s "понедельник".data || containsSub s "вторник".data ||
    containsSub s "среда".data || containsSub s "четверг".data ||
    containsSub s "пятница".data || containsSub s "суббота".data ||
    containsSub s "воскресенье".data

/-! ### `normalizeWhenLocalPair` -/

/-- Result of the resolver: the instant-string and the canonical local
string. -/
structure NormResult where
  utcISO : String
  localPlain : String
  deriving DecidableEq, Repr

structure Parts5 where
  year : Int
  month : Int
  day : Int
  hour : Int
  minute : Int
  deriving DecidableEq, Repr

/-- Model of `addDaysLocalParts`: add `days` in absolute time, reproject the
calendar date, keep the civil hour and minute of the input parts. -/
def addDaysLocalParts (p : Parts5) (days : Int) : Parts5 :=
  let guess := zonedDateTimeToUTC p.year p.month p.day p.hour p.minute
  let next := guess + days * 86400000
  let q := getTzParts next
  ⟨q.year, q.month, q.day, p.hour, p.minute⟩

/-- Model of `Date.prototype.getDay()`: day of week (0 = Sunday) of the
instant in the host zone, the host zone being the configured zone. -/
def jsGetDay (t : Int) : Int := ((t + tzOffsetMs) / 86400000 + 4) % 7

/-- The `localPlain` string the resolver's `build` assembles from its raw
field values (fields are zero-padded but not range-normalized). -/
def localPlainStr (y mo d h mi : Int) : String :=
  ⟨jsIntString y ++ '-' :: pad2 mo ++ '-' :: pad2 d ++
    'T' :: pad2 h ++ ':' :: pad2 mi ++ ':' :: ['0', '0']⟩

def buildPair (y mo d h mi : Int) : NormResult :=
  ⟨toISOStringUTC (zonedDateTimeToUTC y mo d h mi), localPlainStr y mo d h mi⟩

/-- Model of `normalizeWhenLocalPair(input)`.  The source reads the ambient
wall clock (`new Date()`) at entry; that reading is the explicit `now`
parameter here. -/
def normalizeWhenLocalPair (now : Int) (input : String) : NormResult :=
  let src := jsTrim input
  let l := (jsLower src).data
  let nowParts := getTzParts now
  match weekdayFind l with
  | some idx =>
    let t := extractTime l
    let h := if t.1 then t.2.1 else 12
    let m := if t.1 then t.2.2 else 0
    let nowDOW := jsGetDay (zonedDateTimeToUTC nowParts.year nowParts.month nowParts.day
      nowParts.hour nowParts.minute)
    let delta0 := idx - nowDOW
    let delta := if delta0 < 0 then delta0 + 7 else delta0
    let target := addDaysLocalParts ⟨nowParts.year, nowParts.month, nowParts.day, h, m⟩ delta
    let targetDate := zonedDateTimeToUTC target.year target.month target.day h m
    let nowDate := zonedDateTimeToUTC nowParts.year nowParts.month nowParts.day
      nowParts.hour nowParts.minute
    let t2 := if targetDate ≤ nowDate then
        let plus := addDaysLocalParts target 7
        (⟨plus.year, plus.month, plus.day, h, m⟩ : Parts5)
      else target
    buildPair t2.year t2.month t2.day h m
  | none =>
    if containsSub l "послезавтра".data then
      let t := extractTime l
      let h := if t.1 then t.2.1 else 12
      let m := if t.1 then t.2.2 else 0
      let target := addDaysLocalParts ⟨nowParts.year, nowParts.month, nowParts.day, h, m⟩ 2
      buildPair target.year target.month target.day h m
    else if containsSub l "завтра".data then
      let t := extractTime l
      let h := if t.1 then t.2.1 else 12
      let m := if t.1 then t.2.2 else 0
      let target := addDaysLocalParts ⟨nowParts.year, nowParts.month, nowParts.day, h, m⟩ 1
      buildPair target.year target.month target.day h m
    else if containsSub l "сегодня".data then
      let t := extractTime l
      let h := if t.1 then t.2.1 else 12
      let m := if t.1 then t.2.2 else 0
      buildPair nowParts.year nowParts.month nowParts.day h m
    else
      match dmFind l with
      | some (st, dv, mv, yOpt, len) =>
        let year := yOpt.getD nowParts.year
        let matched := (l.drop st).take len
        let remainder := replaceFirstL l matched
        let t := extractTime remainder
        let h := if t.1 then t.2.1 else 12
        let m := if t.1 then t.2.2 else 0
        buildPair year mv dv h m
      | none =>
        match jsDateParse src with
        | some parsed =>
          let p := getTzParts parsed
          buildPair p.year p.month p.day p.hour p.minute
        | none => ⟨src, src⟩

/-! ### Ambiguity policy and display formatting -/

/-- Model of `isLateNightLocal(TIME_ZONE)` with the ambient clock reading as
the explicit `now` parameter. -/
def isLateNightLocal (now : Int) : Bool :=
  decide (22 ≤ (getTzParts now).hour) || decide ((getTzParts now).hour < 4)

/-- The late-night clarification condition shared by `book_trial` and
`reschedule_trial` (the source's literal conjunction). -/
def lateNightClarify (now : Int) (text : String) : Bool :=
  containsRelativeOrWeekday text && !hasExplicitCalendarDate text && isLateNightLocal now

/-- Model of `formatDateDDMMYYYY(date)`. -/
def formatDateDDMMYYYY (date : String) : String :=
  match parseLocalPlainToDate date with
  | none => ""
  | some t =>
    let p := getTzParts t
    ⟨pad2 p.day ++ '.' :: pad2 p.month ++ '.' :: jsIntString p.year⟩

/-- Model of `toLocaleDateString('ru-RU', {2-digit day/month, numeric year})`
in the configured zone: `DD.MM.YYYY`. -/
def ruDateString (t : Int) : String :=
  let p := getTzParts t
  ⟨pad2 p.day ++ '.' :: pad2 p.month ++ '.' :: jsIntString p.year⟩

/-- The human-readable date the tools display: locale-format the stored
string when it parses, otherwise show it as is. -/
def humanDate (w : String) : String :=
  match parseLocalPlainToDate w with
  | some t => ruDateString t
  | none => w

/-! ### Booking ledger and tools -/

structure Booking where
  userId : Int
  name : String
  phone : String
  phoneNormalized : String
  when : String
  createdAt : String
  updatedAt : String
  status : String
  canceledAt : String
  deriving DecidableEq, Repr

/-- Model of `normalizePhone(phone)`. -/
def normalizePhone (phone : String) : String :=
  if phone = "" then ""
  else
    let digits := phone.data.filter Char.isDigit
    if digits.length == 11 && (digits.head? == some '8' || digits.head? == some '7') then
      ⟨'7' :: digits.tail⟩
    else if digits.length == 10 then ⟨'7' :: digits⟩
    else ⟨digits⟩

/-- `normalizePhone(b.phoneNormalized || b.phone)` as used in the duplicate
check. -/
def bPhoneOf (b : Booking) : String :=
  normalizePhone (if b.phoneNormalized ≠ "" then b.phoneNormalized else b.phone)

def clarifyReply (now : Int) (text : String) : String :=
  let lp := (normalizeWhenLocalPair now text).localPlain
  let d := formatDateDDMMYYYY lp
  if d ≠ "" then
    "Уточню: вы имеете в виду " ++ d ++ "? Ответьте полной датой в формате ДД.ММ.ГГГГ."
  else "Уточните, пожалуйста, точную дату в формате ДД.ММ.ГГГГ."

def alreadyBookedMsg : String :=
  "Похоже, у вас уже есть запись на пробную тренировку. Если нужно изменить дату/время — напишите, я помогу."

def successMsg (name phone human : String) : String :=
  "Запись создана: " ++ name ++ ", " ++ phone ++ ", " ++ human ++ ". Мы свяжемся для подтверждения."

/-- Model of the `book_trial` tool body.  The ledger is passed in (the model
of `loadBookings()`) and the possibly extended ledger is returned (the model
of `appendBooking`); the reply string is the tool's return value.  Both
ambient clock reads (`isLateNightLocal`, `normalizeWhenLocalPair`,
`createdAt`) are the same `now`. -/
def book_trial (now : Int) (ledger : List Booking) (uid : Int)
    (name phone whenText : String) : String × List Booking :=
  if lateNightClarify now whenText then (clarifyReply now whenText, ledger)
  else
    let pn := normalizePhone phone
    let alreadyHas := ledger.any fun b =>
      (b.userId == uid || (pn != "" && bPhoneOf b != "" && bPhoneOf b == pn)) &&
        !(b.status == "canceled")
    if alreadyHas then (alreadyBookedMsg, ledger)
    else
      let lp := (normalizeWhenLocalPair now whenText).localPlain
      let record : Booking := ⟨uid, name, phone, pn, lp, toISOStringUTC now, "", "", ""⟩
      (successMsg name phone (humanDate lp), ledger ++ [record])

def activeFor (uid : Int) (b : Booking) : Bool :=
  b.userId == uid && !(b.status == "canceled")

/-- `new Date(acc.createdAt || 0).getTime()` for the reschedule target
selection; an empty `createdAt` falls back to epoch 0 and an unparseable one
is `NaN`, i.e. `none`. -/
def createdTime (b : Booking) : Option Int :=
  if b.createdAt = "" then some 0 else jsDateParse b.createdAt

/-- `tCur >= tAcc` under JavaScript `NaN` semantics: any comparison with
`NaN` is false. -/
def geOpt (x y : Option Int) : Bool :=
  match x, y with
  | some a, some b => decide (b ≤ a)
  | _, _ => false

/-- Model of `candidates.reduce((acc, cur) => tCur >= tAcc ? cur : acc)`. -/
def latestByCreated : List Booking → Option Booking
  | [] => none
  | x :: xs =>
    some (xs.foldl (fun acc cur => if geOpt (createdTime cur) (createdTime acc) then cur else acc) x)

/-- In-place mutation of a found ledger entry, modelled as replacing the
first structurally equal element. -/
def updateFirstEq (l : List Booking) (old upd : Booking) : List Booking :=
  match l with
  | [] => []
  | x :: xs => if x == old then upd :: xs else x :: updateFirstEq xs old upd

def noRescheduleMsg : String :=
  "Не нашёл существующую пробную запись для переноса. Если у вас её ещё нет — могу оформить новую."

def rescheduleDoneMsg (oldH newH : String) : String :=
  "Перенос выполнен: было «" ++ oldH ++ "», стало «" ++ newH ++ "»."

/-- Model of the `reschedule_trial` tool body. -/
def reschedule_trial (now : Int) (ledger : List Booking) (uid : Int)
    (newWhen : String) : String × List Booking :=
  let candidates := ledger.filter (activeFor uid)
  match latestByCreated candidates with
  | none => (noRescheduleMsg, ledger)
  | some target =>
    if lateNightClarify now newWhen then (clarifyReply now newWhen, ledger)
    else
      let lp := (normalizeWhenLocalPair now newWhen).localPlain
      let upd : Booking := ⟨target.userId, target.name, target.phone, target.phoneNormalized,
        lp, target.createdAt, toISOStringUTC now, target.status, target.canceledAt⟩
      (rescheduleDoneMsg (humanDate target.when) (humanDate lp), updateFirstEq ledger target upd)

def exactMatchB (lp : String) (b : Booking) : Bool := jsTrim b.when == jsTrim lp

def fuzzyMatchB (lp : String) (b : Booking) : Bool :=
  match parseLocalPlainToDate b.when, parseLocalPlainToDate lp with
  | some x, some y => decide ((x - y).natAbs < 300000)
  | _, _ => false

/-- The record `cancel_trial` settles on: first candidate with exact trimmed
string equality, else first candidate within the five-minute tolerance.  (The
source's interposed `!!parseLocalPlainToDate(b.when)` refilter keeps every
element, a `Date` object being always truthy, and the fuzzy comparison is
false whenever either side re-derives to an invalid date.) -/
def cancelSelect (now : Int) (ledger : List Booking) (uid : Int)
    (whenText : String) : Option Booking :=
  let lp := (normalizeWhenLocalPair now whenText).localPlain
  let candidates := ledger.filter (activeFor uid)
  match candidates.find? (exactMatchB lp) with
  | some b => some b
  | none => candidates.find? (fuzzyMatchB lp)

def noActiveMsg : String := "Не нашёл активных записей для отмены."

def notFoundMsg : String :=
  "Не удалось найти запись с указанной датой/временем. Уточните, пожалуйста."

def pastMsg : String := "Эту запись уже нельзя отменить (кажется, время прошло)."

def parseWhenToDate (w : String) : Option Int := jsDateParse w

def isFutureDate (now : Int) (dt : Option Int) : Bool :=
  match dt with
  | some t => decide (now < t)
  | none => false

/-- Model of the `cancel_trial` tool body. -/
def cancel_trial (now : Int) (ledger : List Booking) (uid : Int)
    (whenText : String) : String × List Booking :=
  if !(ledger.any (activeFor uid)) then (noActiveMsg, ledger)
  else
    match cancelSelect now ledger uid whenText with
    | none => (notFoundMsg, ledger)
    | some target =>
      if !(isFutureDate now (parseWhenToDate target.when)) then (pastMsg, ledger)
      else
        let upd : Booking := ⟨target.userId, target.name, target.phone,
          target.phoneNormalized, target.when, target.createdAt, target.updatedAt,
          "canceled", toISOStringUTC now⟩
        ("Запись отменена: " ++ humanDate target.when ++ ". Могу помочь выбрать новую дату.",
          updateFirstEq ledger target upd)

/-! ### Helper lemmas on substring occurrence -/

theorem litAt_cons_succ (c : Char) (l pat : List Char) (i : Nat) :
    litAt (c :: l) pat (i + 1) = litAt l pat i := by
  induction pat generalizing i with
  | nil => rfl
  | cons d ds ih =>
    simp only [litAt]
    rw [List.getElem?_cons_succ, ih]

theorem litAt_here (pat rest : List Char) : litAt (pat ++ rest) pat 0 = true := by
  induction pat with
  | nil => rfl
  | cons c cs ih =>
    simp only [litAt, List.cons_append, List.getElem?_cons_zero, litAt_cons_succ,
      Bool.and_eq_true, beq_iff_eq]
    exact ⟨trivial, ih⟩

theorem litAt_shift (x y pat : List Char) : ∀ i, litAt y pat i = true →
    litAt (x ++ y) pat (x.length + i) = true := by
  intro i h
  induction pat generalizing i with
  | nil => rfl
  | cons c cs ih =>
    simp only [litAt, Bool.and_eq_true] at h ⊢
    refine ⟨?_, ?_⟩
    · rw [List.getElem?_append_right (by omega), Nat.add_sub_cancel_left]
      exact h.1
    · have := ih (i + 1) h.2
      rwa [← Nat.add_assoc] at this

theorem containsSub_append_left (x y pat : List Char) (h : containsSub y pat = true) :
    containsSub (x ++ y) pat = true := by
  rcases List.any_eq_true.mp h with ⟨i, hi, hlit⟩
  refine List.any_eq_true.mpr ⟨x.length + i, ?_, litAt_shift x y pat i hlit⟩
  have hi2 := List.mem_range.mp hi
  refine List.mem_range.mpr ?_
  rw [List.length_append]
  omega

theorem containsSub_here (pat rest : List Char) : containsSub (pat ++ rest) pat = true := by
  refine List.any_eq_true.mpr ⟨0, List.mem_range.mpr (by omega), litAt_here pat rest⟩

/-! ### Claim theorems -/

/-- C1: the claim states that every input naming a Russian weekday resolves
to a (instant, canonical local string) pair on that weekday strictly after
now.  This fails on the code: the weekday rules are guarded by `\b` word
boundaries, and ECMAScript `\b` recognizes only ASCII word characters, so
`\bпятница\b`-style patterns can never match a position adjacent to Cyrillic
letters.  Every ordinary Russian weekday phrase therefore falls through all
rules and is returned unchanged (the pass-through case), as evaluated here
for «в пятницу» and «пятница» at a fixed clock reading. -/
theorem c1_weekday_rules_unreachable :
    normalizeWhenLocalPair 1759550400000 "в пятницу" = ⟨"в пятницу", "в пятницу"⟩ ∧
    normalizeWhenLocalPair 1759550400000 "пятница" = ⟨"пятница", "пятница"⟩ ∧
    weekdayFind (jsLower "в пятницу").data = none ∧
    weekdayFind (jsLower "xпятницаx").data = some 5 := by
  refine ⟨by decide, by decide, by decide, by decide⟩

/-- C2: the late-night clarification condition of `book_trial` and
`reschedule_trial` holds iff the local hour is in the 22:00–03:59 window, the
text contains a relative word or (nominative) weekday name, and no explicit
calendar date pattern occurs in the text; when it holds, both tools return
the clarification prompt and the unchanged ledger.  The two dashboard
examples are checked at `now` = 2025-10-04T23:10 Asia/Omsk. -/
theorem c2_requires_clarification_iff :
    (∀ now : Int, ∀ text : String, lateNightClarify now text = true ↔
      ((22 ≤ (getTzParts now).hour ∨ (getTzParts now).hour < 4) ∧
        containsRelativeOrWeekday text = true ∧ hasExplicitCalendarDate text = false)) ∧
    (∀ now : Int, ∀ ledger : List Booking, ∀ uid : Int, ∀ name phone whenText : String,
      lateNightClarify now whenText = true →
      book_trial now ledger uid name phone whenText = (clarifyReply now whenText, ledger)) ∧
    (∀ now : Int, ∀ ledger : List Booking, ∀ uid : Int, ∀ newWhen : String, ∀ target : Booking,
      latestByCreated (ledger.filter (activeFor uid)) = some target →
      lateNightClarify now newWhen = true →
      reschedule_trial now ledger uid newWhen = (clarifyReply now newWhen, ledger)) ∧
    lateNightClarify 1759597800000 "завтра" = true ∧
    lateNightClarify 1759597800000 "05.10.2025" = false := by
  refine ⟨?_, ?_, ?_, by decide, by decide⟩
  · intro now text
    simp only [lateNightClarify, isLateNightLocal, Bool.and_eq_true, Bool.or_eq_true,
      Bool.not_eq_true', decide_eq_true_eq]
    constructor
    · intro h
      tauto
    · intro h
      tauto
  · intro now ledger uid name phone whenText h
    simp [book_trial, h]
  · intro now ledger uid newWhen target htarget h
    simp [reschedule_trial, htarget, h]

/-- Witness for C2 at concrete inputs. -/
theorem c2_requires_clarification_iff_witness :
    book_trial 1759597800000 [] 7 "Аня" "79990001122" "завтра" =
      (clarifyReply 1759597800000 "завтра", []) :=
  c2_requires_clarification_iff.2.1 1759597800000 [] 7 "Аня" "79990001122" "завтра" (by decide)

/-- C3: projecting an instant to the canonical local string and parsing that
string back yields the instant again up to the code's one-minute tolerance
(the parser drops the seconds capture), exactly when sub-minute precision is
absent; the year must be four digits wide for the anchored pattern to match.
In the fixed-offset model of the configured zone every instant is away from a
DST transition. -/
theorem c3_projection_roundtrip (t : Int) (h1 : 1000 ≤ (getTzParts t).year)
    (h2 : (getTzParts t).year ≤ 9999) :
    ∃ r, parseLocalPlainToDate (formatLocalPlain t) = some r ∧
      (r - t).natAbs < 60000 ∧ (t % 60000 = 0 → r = t) := by
  refine ⟨t - t % 60000, parseLocalPlain_format t h1 h2, ?_, ?_⟩ <;> omega

/-- Witness for C3 at a concrete sub-minute instant. -/
theorem c3_projection_roundtrip_witness :
    ∃ r, parseLocalPlainToDate (formatLocalPlain 1759597830500) = some r ∧
      (r - 1759597830500).natAbs < 60000 ∧
      ((1759597830500 : Int) % 60000 = 0 → r = 1759597830500) :=
  c3_projection_roundtrip 1759597830500 (by decide) (by decide)

/-- C4 counterexample: the claim that the resolver never reads the ambient
wall clock fails on the code.  `normalizeWhenLocalPair` has no now parameter
at all; it calls `new Date()` internally (line 123), so its output is a
function of the ambient clock: the same text resolved at two different clock
readings yields different results. -/
theorem c4_resolver_reads_ambient_clock :
    normalizeWhenLocalPair 1759550400000 "завтра" ≠
      normalizeWhenLocalPair 1759636800000 "завтра" := by
  decide

/-- C4 amended: the resolution pipeline is pure and deterministic once the
ambient clock reading taken at entry is fixed — two evaluations against
equal clock readings agree on every input — but the clock is read inside
`normalizeWhenLocalPair` and `isLateNightLocal` rather than injected. -/
theorem c4_deterministic_given_clock (t1 t2 : Int) (input : String) (h : t1 = t2) :
    normalizeWhenLocalPair t1 input = normalizeWhenLocalPair t2 input ∧
    isLateNightLocal t1 = isLateNightLocal t2 := by
  subst h
  exact ⟨rfl, rfl⟩

/-- Witness for C4's amended determinism statement. -/
theorem c4_deterministic_given_clock_witness :
    normalizeWhenLocalPair 1759550400000 "завтра" =
      normalizeWhenLocalPair 1759550400000 "завтра" ∧
    isLateNightLocal 1759550400000 = isLateNightLocal 1759550400000 :=
  c4_deterministic_given_clock 1759550400000 1759550400000 "завтра" rfl

/-- C5: when an input reaches the numeric calendar date rule (no weekday rule
and no relative word fired earlier) and the `D.M(.YYYY)` pattern matches, the
resolver takes day, month and year (the year defaulting to the current local
year) from the match, scans only the remainder of the string — the input with
the matched substring replaced — for an explicit clock time, defaults the
time to 12:00 when none is found, and assembles the canonical local string
from exactly these fields; in particular «25.12.2025 в 18:30» resolves to
`2025-12-25T18:30:00` for every `now` (the explicit time being found by the
bare `H:MM` rule). -/
theorem c5_numeric_date_rule :
    (∀ now : Int, ∀ input : String, ∀ st : Nat, ∀ dv mv : Int, ∀ yOpt : Option Int, ∀ len : Nat,
      weekdayFind ((jsLower (jsTrim input)).data) = none →
      containsSub ((jsLower (jsTrim input)).data) "послезавтра".data = false →
      containsSub ((jsLower (jsTrim input)).data) "завтра".data = false →
      containsSub ((jsLower (jsTrim input)).data) "сегодня".data = false →
      dmFind ((jsLower (jsTrim input)).data) = some (st, dv, mv, yOpt, len) →
      normalizeWhenLocalPair now input =
        buildPair (yOpt.getD (getTzParts now).year) mv dv
          (if (extractTime (replaceFirstL ((jsLower (jsTrim input)).data)
              ((((jsLower (jsTrim input)).data).drop st).take len))).1
           then (extractTime (replaceFirstL ((jsLower (jsTrim input)).data)
              ((((jsLower (jsTrim input)).data).drop st).take len))).2.1 else 12)
          (if (extractTime (replaceFirstL ((jsLower (jsTrim input)).data)
              ((((jsLower (jsTrim input)).data).drop st).take len))).1
           then (extractTime (replaceFirstL ((jsLower (jsTrim input)).data)
              ((((jsLower (jsTrim input)).data).drop st).take len))).2.2 else 0)) ∧
    (∀ now : Int,
      (normalizeWhenLocalPair now "25.12.2025 в 18:30").localPlain = "2025-12-25T18:30:00") := by
  have hgen : ∀ now : Int, ∀ input : String, ∀ st : Nat, ∀ dv mv : Int, ∀ yOpt : Option Int,
      ∀ len : Nat,
      weekdayFind ((jsLower (jsTrim input)).data) = none →
      containsSub ((jsLower (jsTrim input)).data) "послезавтра".data = false →
      containsSub ((jsLower (jsTrim input)).data) "завтра".data = false →
      containsSub ((jsLower (jsTrim input)).data) "сегодня".data = false →
      dmFind ((jsLower (jsTrim input)).data) = some (st, dv, mv, yOpt, len) →
      normalizeWhenLocalPair now input =
        buildPair (yOpt.getD (getTzParts now).year) mv dv
          (if (extractTime (replaceFirstL ((jsLower (jsTrim input)).data)
              ((((jsLower (jsTrim input)).data).drop st).take len))).1
           then (extractTime (replaceFirstL ((jsLower (jsTrim input)).data)
              ((((jsLower (jsTrim input)).data).drop st).take len))).2.1 else 12)
          (if (extractTime (replaceFirstL ((jsLower (jsTrim input)).data)
              ((((jsLower (jsTrim input)).data).drop st).take len))).1
           then (extractTime (replaceFirstL ((jsLower (jsTrim input)).data)
              ((((jsLower (jsTrim input)).data).drop st).take len))).2.2 else 0) := by
    intro now input st dv mv yOpt len hw h1 h2 h3 hdm
    simp [normalizeWhenLocalPair, hw, h1, h2, h3, hdm]
  refine ⟨hgen, ?_⟩
  intro now
  have h := hgen now "25.12.2025 в 18:30" 0 25 12 (some 2025) 10
    (by decide) (by decide) (by decide) (by decide) (by decide)
  rw [h]
  simp only [Option.getD_some]
  decide

/-- Witness for C5's rule-level statement at a concrete input. -/
theorem c5_numeric_date_rule_witness :
    normalizeWhenLocalPair 1759550400000 "01.02" =
      buildPair ((none : Option Int).getD (getTzParts 1759550400000).year) 2 1
        (if (extractTime (replaceFirstL ((jsLower (jsTrim "01.02")).data)
            ((((jsLower (jsTrim "01.02")).data).drop 0).take 5))).1
         then (extractTime (replaceFirstL ((jsLower (jsTrim "01.02")).data)
            ((((jsLower (jsTrim "01.02")).data).drop 0).take 5))).2.1 else 12)
        (if (extractTime (replaceFirstL ((jsLower (jsTrim "01.02")).data)
            ((((jsLower (jsTrim "01.02")).data).drop 0).take 5))).1
         then (extractTime (replaceFirstL ((jsLower (jsTrim "01.02")).data)
            ((((jsLower (jsTrim "01.02")).data).drop 0).take 5))).2.2 else 0) :=
  c5_numeric_date_rule.1 1759550400000 "01.02" 0 1 2 none 5
    (by decide) (by decide) (by decide) (by decide) (by decide)

/-- C6 counterexample: the claim says a triggered late-night clarification
presents the resolved candidate date in `DD.MM.YYYY` form.  For the
nominative weekday «пятница» the condition triggers (a weekday name, no
explicit date, late night) yet the resolution falls through (C1), so
`formatDateDDMMYYYY` yields the empty string and the tool answers with the
generic prompt, which contains no digits and hence no candidate date. -/
theorem c6_generic_prompt_without_candidate :
    lateNightClarify 1759597800000 "пятница" = true ∧
    book_trial 1759597800000 [] 7 "Иван" "89991112233" "пятница" =
      ("Уточните, пожалуйста, точную дату в формате ДД.ММ.ГГГГ.", []) ∧
    ("Уточните, пожалуйста, точную дату в формате ДД.ММ.ГГГГ.".data.all fun c => !c.isDigit)
      = true := by
  refine ⟨by decide, by decide, by decide⟩

/-- C6 amended: when the late-night clarification branch fires in
`book_trial` or `reschedule_trial`, the tool mutates no stored state and
returns the clarification prompt, which always asks for a full date in
`ДД.ММ.ГГГГ` format and includes the resolved candidate date exactly when the
resolved canonical local string re-parses to an instant (otherwise the prompt
is the generic one without a candidate). -/
theorem c6_clarification_no_mutation :
    (∀ now : Int, ∀ ledger : List Booking, ∀ uid : Int, ∀ name phone whenText : String,
      lateNightClarify now whenText = true →
      (book_trial now ledger uid name phone whenText).2 = ledger ∧
      (book_trial now ledger uid name phone whenText).1 = clarifyReply now whenText) ∧
    (∀ now : Int, ∀ ledger : List Booking, ∀ uid : Int, ∀ newWhen : String, ∀ target : Booking,
      latestByCreated (ledger.filter (activeFor uid)) = some target →
      lateNightClarify now newWhen = true →
      (reschedule_trial now ledger uid newWhen).2 = ledger ∧
      (reschedule_trial now ledger uid newWhen).1 = clarifyReply now newWhen) ∧
    (∀ now : Int, ∀ text : String, containsSubS (clarifyReply now text) "ДД.ММ.ГГГГ" = true) ∧
    (∀ now : Int, ∀ text : String,
      formatDateDDMMYYYY ((normalizeWhenLocalPair now text).localPlain) ≠ "" →
      containsSubS (clarifyReply now text)
        (formatDateDDMMYYYY ((normalizeWhenLocalPair now text).localPlain)) = true) := by
  refine ⟨?_, ?_, ?_, ?_⟩
  · intro now ledger uid name phone whenText h
    constructor <;> simp [book_trial, h]
  · intro now ledger uid newWhen target htarget h
    constructor <;> simp [reschedule_trial, htarget, h]
  · intro now text
    unfold clarifyReply containsSubS
    by_cases hd : formatDateDDMMYYYY ((normalizeWhenLocalPair now text).localPlain) ≠ ""
    · rw [if_pos hd, String.data_append]
      exact containsSub_append_left _ _ _ (by decide)
    · rw [if_neg hd]
      decide
  · intro now text hd
    unfold clarifyReply containsSubS
    rw [if_pos hd, String.data_append, String.data_append, List.append_assoc]
    exact containsSub_append_left _ _ _ (containsSub_here _ _)

/-- Witness for C6's amended statement at a concrete triggering input. -/
theorem c6_clarification_no_mutation_witness :
    (book_trial 1759597800000 [] 3 "Ира" "79995554433" "завтра").2 = [] ∧
    (book_trial 1759597800000 [] 3 "Ира" "79995554433" "завтра").1 =
      clarifyReply 1759597800000 "завтра" :=
  c6_clarification_no_mutation.1 1759597800000 [] 3 "Ира" "79995554433" "завтра" (by decide)

theorem exactMatchB_iff (lp : String) (b : Booking) :
    exactMatchB lp b = true ↔ jsTrim b.when = jsTrim lp := by
  simp [exactMatchB]

theorem fuzzyMatchB_iff (lp : String) (b : Booking) :
    fuzzyMatchB lp b = true ↔
      ∃ x y : Int, parseLocalPlainToDate b.when = some x ∧
        parseLocalPlainToDate lp = some y ∧ (x - y).natAbs < 300000 := by
  unfold fuzzyMatchB
  rcases hx : parseLocalPlainToDate b.when with _ | x <;>
    rcases hy : parseLocalPlainToDate lp with _ | y <;> simp

/-- C7: `cancel_trial` treats a stored active booking as referring to the
requested moment iff the trimmed stored canonical string equals the trimmed
resolved one, or the instants re-derived from the two strings differ by
strictly less than five minutes; the booking it settles on satisfies this
rule, and when no active candidate satisfies it the tool reports a
failure-to-find message and returns the ledger unchanged. -/
theorem c7_cancel_matching_rule (now : Int) (ledger : List Booking) (uid : Int)
    (whenText : String) :
    (∀ b : Booking, cancelSelect now ledger uid whenText = some b →
      activeFor uid b = true ∧
      (jsTrim b.when = jsTrim ((normalizeWhenLocalPair now whenText).localPlain) ∨
        ∃ x y : Int, parseLocalPlainToDate b.when = some x ∧
          parseLocalPlainToDate ((normalizeWhenLocalPair now whenText).localPlain) = some y ∧
          (x - y).natAbs < 300000)) ∧
    ((∀ b ∈ ledger, activeFor uid b = true →
        ¬(jsTrim b.when = jsTrim ((normalizeWhenLocalPair now whenText).localPlain) ∨
          ∃ x y : Int, parseLocalPlainToDate b.when = some x ∧
            parseLocalPlainToDate ((normalizeWhenLocalPair now whenText).localPlain) = some y ∧
            (x - y).natAbs < 300000)) →
      (cancel_trial now ledger uid whenText).2 = ledger ∧
      ((cancel_trial now ledger uid whenText).1 = noActiveMsg ∨
        (cancel_trial now ledger uid whenText).1 = notFoundMsg)) := by
  constructor
  · intro b hsel
    simp only [cancelSelect] at hsel
    rcases hfind : (ledger.filter (activeFor uid)).find?
        (exactMatchB ((normalizeWhenLocalPair now whenText).localPlain)) with _ | b'
    · rw [hfind] at hsel
      simp only at hsel
      have hmem := List.mem_of_find?_eq_some hsel
      have hp := List.find?_some hsel
      exact ⟨(List.mem_filter.mp hmem).2,
        Or.inr ((fuzzyMatchB_iff _ b).mp hp)⟩
    · rw [hfind] at hsel
      simp only [Option.some.injEq] at hsel
      subst hsel
      have hmem := List.mem_of_find?_eq_some hfind
      have hp := List.find?_some hfind
      exact ⟨(List.mem_filter.mp hmem).2, Or.inl ((exactMatchB_iff _ b').mp hp)⟩
  · intro hnone
    have h1 : (ledger.filter (activeFor uid)).find?
        (exactMatchB ((normalizeWhenLocalPair now whenText).localPlain)) = none := by
      refine List.find?_eq_none.mpr ?_
      intro b hb hpb
      have hmf := List.mem_filter.mp hb
      exact hnone b hmf.1 hmf.2 (Or.inl ((exactMatchB_iff _ b).mp hpb))
    have h2 : (ledger.filter (activeFor uid)).find?
        (fuzzyMatchB ((normalizeWhenLocalPair now whenText).localPlain)) = none := by
      refine List.find?_eq_none.mpr ?_
      intro b hb hpb
      have hmf := List.mem_filter.mp hb
      exact hnone b hmf.1 hmf.2 (Or.inr ((fuzzyMatchB_iff _ b).mp hpb))
    have hsel : cancelSelect now ledger uid whenText = none := by
      simp only [cancelSelect, h1, h2]
    by_cases hany : ledger.any (activeFor uid) = true
    · refine ⟨?_, Or.inr ?_⟩ <;> simp [cancel_trial, hany, hsel]
    · have hf : ledger.any (activeFor uid) = false := by
        revert hany
        cases ledger.any (activeFor uid) <;> simp
      refine ⟨?_, Or.inl ?_⟩ <;> simp [cancel_trial, hf]

/-- Witness for C7's no-match branch at a concrete input. -/
theorem c7_cancel_matching_rule_witness :
    (cancel_trial 1759550400000 [] 1 "завтра").2 = [] ∧
    ((cancel_trial 1759550400000 [] 1 "завтра").1 = noActiveMsg ∨
      (cancel_trial 1759550400000 [] 1 "завтра").1 = notFoundMsg) :=
  (c7_cancel_matching_rule 1759550400000 [] 1 "завтра").2
    (by intro b hb hact; exact absurd hb (List.not_mem_nil b))

/-- An active stored booking used by the C8 and C10 scenarios. -/
def sampleActive : Booking :=
  ⟨42, "Анна", "79130000000", "79130000000", "2025-10-10T12:00:00",
    "2025-10-01T05:00:00.000Z", "", "", ""⟩

/-- C8 counterexample: the claim says that with an existing non-canceled
booking for the same user, `book_trial` returns an already-booked message.
The late-night clarification check runs first: at 23:10 local with
`when = «завтра»` the tool answers with the clarification prompt instead
(while still appending nothing), so the message part of the claim fails. -/
theorem c8_clarification_preempts_already_booked :
    sampleActive.userId = 42 ∧ sampleActive.status ≠ "canceled" ∧
    book_trial 1759597800000 [sampleActive] 42 "Анна" "79130000000" "завтра" =
      ("Уточню: вы имеете в виду 05.10.2025? Ответьте полной датой в формате ДД.ММ.ГГГГ.",
        [sampleActive]) ∧
    "Уточню: вы имеете в виду 05.10.2025? Ответьте полной датой в формате ДД.ММ.ГГГГ." ≠
      alreadyBookedMsg := by
  refine ⟨rfl, by decide, by decide, by decide⟩

/-- C8 amended: if the ledger already holds a non-canceled booking with the
requesting user's id, `book_trial` appends nothing and leaves the ledger
unchanged in every case, and returns the already-booked message provided the
late-night clarification branch (which precedes the duplicate check) does not
fire. -/
theorem c8_single_active_booking :
    (∀ now : Int, ∀ ledger : List Booking, ∀ uid : Int, ∀ name phone whenText : String,
      ∀ b : Booking, b ∈ ledger → b.userId = uid → b.status ≠ "canceled" →
      (book_trial now ledger uid name phone whenText).2 = ledger) ∧
    (∀ now : Int, ∀ ledger : List Booking, ∀ uid : Int, ∀ name phone whenText : String,
      ∀ b : Booking, lateNightClarify now whenText = false → b ∈ ledger → b.userId = uid →
      b.status ≠ "canceled" →
      book_trial now ledger uid name phone whenText = (alreadyBookedMsg, ledger)) := by
  have hdup : ∀ (uid : Int) (phone : String) (ledger : List Booking) (b : Booking),
      b ∈ ledger → b.userId = uid → b.status ≠ "canceled" →
      (ledger.any fun c =>
        (c.userId == uid || (normalizePhone phone != "" && bPhoneOf c != "" &&
          bPhoneOf c == normalizePhone phone)) && !(c.status == "canceled")) = true := by
    intro uid phone ledger b hmem huid hstat
    refine List.any_eq_true.mpr ⟨b, hmem, ?_⟩
    simp [huid, hstat]
  constructor
  · intro now ledger uid name phone whenText b hmem huid hstat
    by_cases h : lateNightClarify now whenText = true
    · simp [book_trial, h]
    · have hf : lateNightClarify now whenText = false := by
        revert h
        cases lateNightClarify now whenText <;> simp
      simp [book_trial, hf, hdup uid phone ledger b hmem huid hstat]
  · intro now ledger uid name phone whenText b hcl hmem huid hstat
    simp [book_trial, hcl, hdup uid phone ledger b hmem huid hstat]

/-- Witness for C8's amended statement on a daytime duplicate request. -/
theorem c8_single_active_booking_witness :
    book_trial 1759550400000 [sampleActive] 42 "Анна" "79130000000" "10.10.2025" =
      (alreadyBookedMsg, [sampleActive]) :=
  c8_single_active_booking.2 1759550400000 [sampleActive] 42 "Анна" "79130000000" "10.10.2025"
    sampleActive (by decide) (List.mem_singleton.mpr rfl) rfl (by decide)

/-- C9 counterexample: the claim says an unresolvable input is returned
unchanged as both outputs, but the resolver trims the input first: for the
whitespace-padded unresolvable « фывап » both outputs are the trimmed text,
not the original. -/
theorem c9_returns_trimmed_not_original :
    (normalizeWhenLocalPair 1759550400000 " фывап ").utcISO ≠ " фывап " ∧
    (normalizeWhenLocalPair 1759550400000 " фывап ").localPlain ≠ " фывап " := by
  refine ⟨by decide, by decide⟩

/-- C9 amended: for every input on which no weekday rule, relative word or
numeric date rule fires and whose (trimmed) text the generic timestamp parser
rejects, the resolver returns the trimmed input text unchanged as both the
instant-string output and the local-plain output. -/
theorem c9_unresolved_passthrough (now : Int) (input : String)
    (hw : weekdayFind ((jsLower (jsTrim input)).data) = none)
    (h1 : containsSub ((jsLower (jsTrim input)).data) "послезавтра".data = false)
    (h2 : containsSub ((jsLower (jsTrim input)).data) "завтра".data = false)
    (h3 : containsSub ((jsLower (jsTrim input)).data) "сегодня".data = false)
    (hdm : dmFind ((jsLower (jsTrim input)).data) = none)
    (hp : jsDateParse (jsTrim input) = none) :
    normalizeWhenLocalPair now input = ⟨jsTrim input, jsTrim input⟩ := by
  simp [normalizeWhenLocalPair, hw, h1, h2, h3, hdm, hp]

/-- Witness for C9's amended statement. -/
theorem c9_unresolved_passthrough_witness :
    normalizeWhenLocalPair 1759550400000 "фывап" = ⟨"фывап", "фывап"⟩ :=
  c9_unresolved_passthrough 1759550400000 "фывап"
    (by decide) (by decide) (by decide) (by decide) (by decide) (by decide)

/-- C10: `book_trial` also refuses to append a booking when any non-canceled
ledger entry carries the same normalized phone number as the request — the
user ids may differ — and the phone normalization maps an 11-digit number
led by 8 or 7 and a bare 10-digit number to the same canonical 7-prefixed
digit string.  (A phone whose normalization is empty is not compared.) -/
theorem c10_phone_duplicate_refusal :
    (∀ now : Int, ∀ ledger : List Booking, ∀ uid : Int, ∀ name phone whenText : String,
      ∀ b : Booking, b ∈ ledger → b.status ≠ "canceled" →
      bPhoneOf b = normalizePhone phone → normalizePhone phone ≠ "" →
      (book_trial now ledger uid name phone whenText).2 = ledger) ∧
    (∀ ds : List Char, ds.length = 10 → (∀ c ∈ ds, c.isDigit = true) →
      normalizePhone ⟨'8' :: ds⟩ = ⟨'7' :: ds⟩ ∧
      normalizePhone ⟨'7' :: ds⟩ = ⟨'7' :: ds⟩ ∧
      normalizePhone (⟨ds⟩ : String) = ⟨'7' :: ds⟩) := by
  constructor
  · intro now ledger uid name phone whenText b hmem hstat hph hpn
    by_cases h : lateNightClarify now whenText = true
    · simp [book_trial, h]
    · have hf : lateNightClarify now whenText = false := by
        revert h
        cases lateNightClarify now whenText <;> simp
      have hdup : (ledger.any fun c =>
          (c.userId == uid || (normalizePhone phone != "" && bPhoneOf c != "" &&
            bPhoneOf c == normalizePhone phone)) && !(c.status == "canceled")) = true := by
        refine List.any_eq_true.mpr ⟨b, hmem, ?_⟩
        simp [hstat, hph, hpn]
      simp [book_trial, hf, hdup]
  · intro ds hlen hdig
    have hfilter : ds.filter Char.isDigit = ds := List.filter_eq_self.mpr hdig
    refine ⟨?_, ?_, ?_⟩
    · have hne : (⟨'8' :: ds⟩ : String) ≠ "" := by
        intro hEq
        have := congrArg String.data hEq
        simp at this
      simp only [normalizePhone, if_neg hne]
      show (if (('8' :: ds).filter Char.isDigit).length == 11 && _ then _ else _) = _
      rw [List.filter_cons_of_pos (by decide), hfilter]
      simp [hlen]
    · have hne : (⟨'7' :: ds⟩ : String) ≠ "" := by
        intro hEq
        have := congrArg String.data hEq
        simp at this
      simp only [normalizePhone, if_neg hne]
      show (if (('7' :: ds).filter Char.isDigit).length == 11 && _ then _ else _) = _
      rw [List.filter_cons_of_pos (by decide), hfilter]
      simp [hlen]
    · have hne : (⟨ds⟩ : String) ≠ "" := by
        intro hEq
        have hds := congrArg String.data hEq
        simp at hds
        subst hds
        simp at hlen
      simp only [normalizePhone, if_neg hne]
      show (if (ds.filter Char.isDigit).length == 11 && _ then _ else _) = _
      rw [hfilter]
      simp [hlen]

/-- Witness for C10: a different user id with the same phone in another
format is refused, and the normalization examples evaluate as stated. -/
theorem c10_phone_duplicate_refusal_witness :
    (book_trial 1759550400000 [sampleActive] 777 "Пётр" "89130000000" "10.10.2025").2 =
      [sampleActive] ∧
    normalizePhone ⟨'8' :: "9131234567".data⟩ = ⟨'7' :: "9131234567".data⟩ :=
  ⟨c10_phone_duplicate_refusal.1 1759550400000 [sampleActive] 777 "Пётр" "89130000000"
      "10.10.2025" sampleActive (List.mem_singleton.mpr rfl) (by decide) (by decide) (by decide),
    (c10_phone_duplicate_refusal.2 "9131234567".data (by decide) (by decide)).1⟩

end FitnessBot
